import Mathlib

/-!
Verification of the matchmaking-and-battle lifecycle of the
`koishi-plugin-deerpipe-qbot` plugin (`src/index.ts`, second revision in the
file, the one with `DEPOSIT = 2` and the `开始对对碰` command).

The embedding models:
* the `users` table as an association list keyed by `userId`
  (`ctx.database.get` / `ctx.database.set` on the `points` field);
* the three process-wide `Map`s (`matchingLobby`, `pendingGames`,
  `activeGames`) as insertion-ordered association lists with JS `Map`
  semantics (`set` updates in place or appends, `delete` removes the entry,
  `entries()[0]` is the head);
* the `对对碰匹配` action (`matchEnqueue`), the lobby-timeout callback
  (`lobbyTimeout`), the `开始对对碰` action (`confirmStart`) and
  `sendBattleLog` (`battleTick`) as state transformers, with `Math.random()`
  draws passed in as rational inputs and message sends collected in a log;
* additionally, a small-step model (`CSt`, `stepTS`, `cstep`, `run`) of the
  `对对碰匹配` handler in which every `await` of the handler is a yield
  point, so that timer callbacks and other handler instances can interleave
  exactly as the Node.js event loop allows.
-/

namespace DeerPipe

/-- Source constant `DEPOSIT = 2`. -/
def DEPOSIT : Int := 2

/-- Source constant `BATTLE_LOG_COUNT = 5`. -/
def BATTLE_LOG_COUNT : Nat := 5

/-- Row of the `users` table (fields used by the core lifecycle). -/
structure UserData where
  userId : String
  username : String
  lastCheckIn : Option String
  points : Int
  lv : Int
  experience : Int
  streak : Int
deriving DecidableEq, Repr

/-- `LobbyPlayer`: the session is modelled by the owning player's id (it is
only used as a message recipient).  `snapshot` is the value of the captured
`user.points` variable after the in-memory decrement on line 666; the
timeout closure and the stale-opponent refund both compute their write from
it, not from the database. -/
structure LobbyPlayer where
  bet : Int
  snapshot : Int
deriving DecidableEq, Repr

/-- `PendingGame` (sessions again modelled by the player ids). -/
structure PendingGame where
  player1Id : String
  player2Id : String
  player1Bet : Int
  player2Bet : Int
  winnerId : String
deriving DecidableEq, Repr

/-- `ActiveGame extends PendingGame`; the `intervalId` handle is modelled by
the `St.intervals` list of keys with a running periodic timer. -/
structure ActiveGame extends PendingGame where
  logCount : Nat
deriving DecidableEq, Repr

/-- Messages pushed through `session.send`, with the payloads the claims
talk about (tick counters, amounts, new balances); flavor phrases are
irrelevant to every claim and omitted. -/
inductive Msg where
  | matchFoundWait (oppName : String)
  | matchFoundJoin (oppName : String)
  | gameStart
  | battleLog (n total : Nat) (wLv : Int) (wName : String) (lLv : Int) (lName : String)
  | resultWin (gained deposit newPts : Int)
  | resultLose (lost deposit newPts : Int)
  | timeoutRefund (total newPts : Int)
deriving DecidableEq, Repr

/-- Strings returned by the command actions. -/
inductive Reply where
  | registerFirst
  | invalidBet
  | insufficientPoints (needed cur : Int)
  | alreadyInGame
  | matched
  | enteredLobby (bet deposit cur : Int)
  | staleOpponent
  | noPendingGame
  | gameStarted
  | crashed
deriving DecidableEq, Repr

/-- JS `Map.get`. -/
def mapGet {α : Type} : List (String × α) → String → Option α
  | [], _ => none
  | (k, v) :: l, x => if k = x then some v else mapGet l x

/-- JS `Map.set`: update in place (keeping insertion order) or append. -/
def mapSet {α : Type} : List (String × α) → String → α → List (String × α)
  | [], x, v => [(x, v)]
  | (k, w) :: l, x, v => if k = x then (k, v) :: l else (k, w) :: mapSet l x v

/-- JS `Map.delete`. -/
def mapDelete {α : Type} : List (String × α) → String → List (String × α)
  | [], _ => []
  | (k, w) :: l, x => if k = x then l else (k, w) :: mapDelete l x

/-- `ctx.database.set('users', { userId }, { points })`: an absolute write of
the `points` field; a write against a missing row matches nothing. -/
def dbSetPoints (db : List (String × UserData)) (uid : String) (pts : Int) :
    List (String × UserData) :=
  match mapGet db uid with
  | none => db
  | some u => mapSet db uid { u with points := pts }

/-- Erase one occurrence from a list of keys (used for `clearInterval`). -/
def listErase : List String → String → List String
  | [], _ => []
  | x :: l, y => if x = y then l else x :: listErase l y

/-- The process-wide state: the `users` table, the three `Map`s, the set of
running `setInterval` handles (by active-game key) and the log of messages
delivered through `session.send` (recipient, message). -/
structure St where
  db : List (String × UserData)
  matchingLobby : List (String × LobbyPlayer)
  pendingGames : List (String × PendingGame)
  activeGames : List (String × ActiveGame)
  intervals : List String
  msgs : List (String × Msg)
deriving DecidableEq, Repr

/-- The membership check on line 660: lobby key, pending key, active key,
pending `player2Id`, active `player2Id`. -/
def isParticipant (uid : String) (s : St) : Bool :=
  (mapGet s.matchingLobby uid).isSome ||
  (mapGet s.pendingGames uid).isSome ||
  (mapGet s.activeGames uid).isSome ||
  s.pendingGames.any (fun e => e.2.player2Id == uid) ||
  s.activeGames.any (fun e => e.2.player2Id == uid)

/-- `0.5 + (lvDifference * 0.05)` over exact rationals, written as a single
normalized fraction so that it evaluates by kernel reduction;
`winChance_eq` below proves it equal to the source expression. -/
def winChance (lv1 lv2 : Int) : ℚ := mkRat (10 + (lv1 - lv2)) 20

/-- The `对对碰匹配` action as one atomic transition (the serialized model;
the small-step model below exposes its suspension points).  `rand` is the
`Math.random()` draw used for the winner decision. -/
def matchEnqueue (uid : String) (bet : Option Int) (rand : ℚ) (s : St) :
    St × Reply :=
  match mapGet s.db uid with
  | none => (s, .registerFirst)
  | some user =>
    match bet with
    | none => (s, .invalidBet)
    | some b =>
      if b ≤ 0 then (s, .invalidBet)
      else
        let totalCost := b + DEPOSIT
        if user.points < totalCost then
          (s, .insufficientPoints totalCost user.points)
        else if isParticipant uid s then (s, .alreadyInGame)
        else
          -- line 665: escrow debit, then line 666: in-memory decrement
          let upts := user.points - totalCost
          let db1 := dbSetPoints s.db uid upts
          match s.matchingLobby with
          | [] =>
            -- lines 709-719: arm the 60 s timer and insert the lobby entry;
            -- the refund closure captures `user.points` (= upts) and
            -- `totalCost`, recorded in the entry as `snapshot` / `bet`.
            (⟨db1, mapSet s.matchingLobby uid ⟨b, upts⟩,
              s.pendingGames, s.activeGames, s.intervals, s.msgs⟩,
             .enteredLobby b DEPOSIT upts)
          | (oppId, oppE) :: _ =>
            match mapGet db1 oppId with
            | none =>
              -- lines 672-677: stale opponent; entry dropped (timer NOT
              -- cleared), caller refunded from the snapshot, error returned
              -- to the caller only, nothing sent to the opponent.
              (⟨dbSetPoints db1 uid (upts + totalCost),
                mapDelete s.matchingLobby oppId,
                s.pendingGames, s.activeGames, s.intervals, s.msgs⟩,
               .staleOpponent)
            | some p1 =>
              -- lines 679-706: clearTimeout + delete, re-read both levels,
              -- decide the winner, create the pending game, notify both.
              match mapGet db1 uid with
              | none => (s, .crashed)
              | some p2 =>
                let chance := winChance p1.lv p2.lv
                let winnerId := if rand < chance then oppId else uid
                let game : PendingGame := ⟨oppId, uid, oppE.bet, b, winnerId⟩
                (⟨db1, mapDelete s.matchingLobby oppId,
                  mapSet s.pendingGames oppId game,
                  s.activeGames, s.intervals,
                  s.msgs ++ [(oppId, .matchFoundWait p2.username),
                             (uid, .matchFoundJoin p1.username)]⟩,
                 .matched)

/-- The lobby-timeout callback (lines 709-716) as one atomic transition: if
the entry is still present, delete it and write the refund computed from the
closure's captured snapshot. -/
def lobbyTimeout (uid : String) (s : St) : St :=
  match mapGet s.matchingLobby uid with
  | none => s
  | some e =>
    let total := e.bet + DEPOSIT
    ⟨dbSetPoints s.db uid (e.snapshot + total),
     mapDelete s.matchingLobby uid,
     s.pendingGames, s.activeGames, s.intervals,
     s.msgs ++ [(uid, .timeoutRefund total (e.snapshot + total))]⟩

/-- `sendBattleLog` (lines 809-852).  Returns `none` where the source would
throw (a required `users` row missing when destructured and dereferenced). -/
def battleTick (key : String) (s : St) : Option St :=
  match mapGet s.activeGames key with
  | none => some s
  | some g =>
    let n := g.logCount + 1
    let loserId := if g.winnerId = g.player1Id then g.player2Id else g.player1Id
    match mapGet s.db g.winnerId, mapGet s.db loserId with
    | some w, some l =>
      let tickMsgs := [(g.player1Id, Msg.battleLog n BATTLE_LOG_COUNT w.lv w.username l.lv l.username),
                       (g.player2Id, Msg.battleLog n BATTLE_LOG_COUNT w.lv w.username l.lv l.username)]
      if n ≥ BATTLE_LOG_COUNT then
        -- lines 824-851: clearInterval, remove from activeGames, re-read
        -- both balances, credit the winner with (loser's bet + DEPOSIT),
        -- persist both, send the result pair.
        match mapGet s.db g.player1Id, mapGet s.db g.player2Id with
        | some p1, some p2 =>
          if g.winnerId = g.player1Id then
            let p1pts := p1.points + g.player2Bet + DEPOSIT
            some ⟨dbSetPoints (dbSetPoints s.db g.player1Id p1pts) g.player2Id p2.points,
                  s.matchingLobby, s.pendingGames,
                  mapDelete s.activeGames key,
                  listErase s.intervals key,
                  s.msgs ++ tickMsgs ++
                    [(g.player1Id, .resultWin g.player2Bet DEPOSIT p1pts),
                     (g.player2Id, .resultLose g.player2Bet DEPOSIT p2.points)]⟩
          else
            let p2pts := p2.points + g.player1Bet + DEPOSIT
            some ⟨dbSetPoints (dbSetPoints s.db g.player1Id p1.points) g.player2Id p2pts,
                  s.matchingLobby, s.pendingGames,
                  mapDelete s.activeGames key,
                  listErase s.intervals key,
                  s.msgs ++ tickMsgs ++
                    [(g.player1Id, .resultLose g.player1Bet DEPOSIT p1.points),
                     (g.player2Id, .resultWin g.player1Bet DEPOSIT p2pts)]⟩
        | _, _ => none
      else
        some ⟨s.db, s.matchingLobby, s.pendingGames,
              mapSet s.activeGames key { g with logCount := n },
              s.intervals, s.msgs ++ tickMsgs⟩
    | _, _ => none

/-- The `开始对对碰` action (lines 723-749): gate, promote the pending game,
notify both sessions, run the first tick synchronously, then start the
periodic scheduler. -/
def confirmStart (uid : String) (s : St) : Option (St × Reply) :=
  match mapGet s.pendingGames uid with
  | none => some (s, .noPendingGame)
  | some g =>
    if g.player1Id ≠ uid then some (s, .noPendingGame)
    else
      let s1 : St :=
        ⟨s.db, s.matchingLobby,
         mapDelete s.pendingGames uid,
         mapSet s.activeGames uid ⟨g, 0⟩,
         s.intervals,
         s.msgs ++ [(g.player1Id, .gameStart), (g.player2Id, .gameStart)]⟩
      match battleTick uid s1 with
      | none => none
      | some s2 => some (⟨s2.db, s2.matchingLobby, s2.pendingGames,
                          s2.activeGames, s2.intervals ++ [uid], s2.msgs⟩,
                         .gameStarted)

/-- Iterate the periodic `sendBattleLog` firings. -/
def runTicks : Nat → String → St → Option St
  | 0, _, s => some s
  | n + 1, k, s => (battleTick k s).bind (runTicks n k)

/-! ## Small-step model of the `对对碰匹配` handler

Each `await` in the handler is a yield point of the Node.js event loop.  The
handler is represented as a continuation (`TS`); one step runs the
synchronous code of a segment and performs the database operation initiated
at its end, capturing the operation's result in the next continuation.
Timer callbacks (`fireTimer`) and ledger writes by other features (`ext`)
are further atomic steps that can interleave between segments. -/

/-- A pending `setTimeout` created by the lobby branch, carrying the values
the refund closure captured. -/
structure Timer where
  uid : String
  snapshot : Int
  bet : Int
  cancelled : Bool
  fired : Bool
deriving DecidableEq, Repr

/-- Continuations of the `对对碰匹配` handler, one per await-delimited
segment.  `m0`: about to read the caller's row (line 640).  `m1`: resumed
with that row, about to validate and write the debit (line 665).  `m2`:
resumed after the debit, about to inspect the lobby and read the opponent's
row (line 671).  `m3`: resumed with the opponent's row, stale check,
`clearTimeout` + `delete` (679-680), re-read player1 (line 683).  `m4`:
re-read player2 (line 684).  `m5`: compute the winner and publish the
pending game (686-706). -/
inductive TS where
  | m0 (uid : String) (bet : Option Int) (rand : ℚ)
  | m1 (uid : String) (bet : Option Int) (rand : ℚ) (user : Option UserData)
  | m2 (uid : String) (bet : Int) (rand : ℚ) (upts : Int)
  | m3 (uid : String) (bet : Int) (rand : ℚ) (upts : Int)
       (oppId : String) (oppBet : Int) (opp : Option UserData)
  | m4 (uid : String) (bet : Int) (rand : ℚ) (upts : Int)
       (oppId : String) (oppBet : Int) (p1 : Option UserData)
  | m5 (uid : String) (bet : Int) (rand : ℚ) (upts : Int)
       (oppId : String) (oppBet : Int) (p1 : Option UserData) (p2 : Option UserData)
  | done (r : Reply)
deriving DecidableEq, Repr

/-- Global state of the interleaved model. -/
structure CSt where
  db : List (String × UserData)
  lobby : List (String × LobbyPlayer)
  pending : List (String × PendingGame)
  active : List (String × ActiveGame)
  msgs : List (String × Msg)
  timers : List Timer
  tasks : List TS
deriving DecidableEq, Repr

/-- The line-660 membership check, against the interleaved state. -/
def isParticipantC (uid : String) (c : CSt) : Bool :=
  (mapGet c.lobby uid).isSome ||
  (mapGet c.pending uid).isSome ||
  (mapGet c.active uid).isSome ||
  c.pending.any (fun e => e.2.player2Id == uid) ||
  c.active.any (fun e => e.2.player2Id == uid)

/-- `clearTimeout` on the timer(s) owned by `uid`. -/
def cancelTimers (uid : String) (ts : List Timer) : List Timer :=
  ts.map (fun t => if t.uid = uid then { t with cancelled := true } else t)

/-- Mark the first live timer of `uid` as fired. -/
def markFired : List Timer → String → List Timer
  | [], _ => []
  | t :: l, uid =>
    if t.uid = uid ∧ t.cancelled = false ∧ t.fired = false then
      { t with fired := true } :: l
    else t :: markFired l uid

/-- Find a live (armed, uncancelled, unfired) timer of `uid`. -/
def findLive (ts : List Timer) (uid : String) : Option Timer :=
  ts.find? (fun t => t.uid == uid && !t.cancelled && !t.fired)

/-- Advance one handler continuation by one segment. -/
def stepTS (ts : TS) (c : CSt) : TS × CSt :=
  match ts with
  | .m0 uid bet r => (.m1 uid bet r (mapGet c.db uid), c)
  | .m1 uid bet r user =>
    match user with
    | none => (.done .registerFirst, c)
    | some u =>
      match bet with
      | none => (.done .invalidBet, c)
      | some b =>
        if b ≤ 0 then (.done .invalidBet, c)
        else if u.points < b + DEPOSIT then
          (.done (.insufficientPoints (b + DEPOSIT) u.points), c)
        else if isParticipantC uid c then (.done .alreadyInGame, c)
        else
          (.m2 uid b r (u.points - (b + DEPOSIT)),
           { c with db := dbSetPoints c.db uid (u.points - (b + DEPOSIT)) })
  | .m2 uid b r upts =>
    match c.lobby with
    | [] =>
      (.done (.enteredLobby b DEPOSIT upts),
       { c with lobby := mapSet c.lobby uid ⟨b, upts⟩,
                timers := c.timers ++ [⟨uid, upts, b, false, false⟩] })
    | (oppId, oppE) :: _ =>
      (.m3 uid b r upts oppId oppE.bet (mapGet c.db oppId), c)
  | .m3 uid b r upts oppId oppBet opp =>
    match opp with
    | none =>
      (.done .staleOpponent,
       { c with lobby := mapDelete c.lobby oppId,
                db := dbSetPoints c.db uid (upts + (b + DEPOSIT)) })
    | some _ =>
      (.m4 uid b r upts oppId oppBet (mapGet c.db oppId),
       { c with timers := cancelTimers oppId c.timers,
                lobby := mapDelete c.lobby oppId })
  | .m4 uid b r upts oppId oppBet p1 =>
    (.m5 uid b r upts oppId oppBet p1 (mapGet c.db uid), c)
  | .m5 uid b r _upts oppId oppBet p1 p2 =>
    match p1, p2 with
    | some p1d, some p2d =>
      let winnerId := if r < winChance p1d.lv p2d.lv then oppId else uid
      (.done .matched,
       { c with pending := mapSet c.pending oppId ⟨oppId, uid, oppBet, b, winnerId⟩,
                msgs := c.msgs ++ [(oppId, .matchFoundWait p2d.username),
                                   (uid, .matchFoundJoin p1d.username)] })
    | _, _ => (.done .crashed, c)
  | .done r => (.done r, c)

/-- Fire the lobby timer of `uid`: lines 709-716 (guarded by the
`matchingLobby.has` check, refund written from the captured snapshot). -/
def fireTimer (uid : String) (c : CSt) : CSt :=
  match findLive c.timers uid with
  | none => c
  | some t =>
    let timers1 := markFired c.timers uid
    if (mapGet c.lobby uid).isSome then
      { c with timers := timers1,
               lobby := mapDelete c.lobby uid,
               db := dbSetPoints c.db uid (t.snapshot + (t.bet + DEPOSIT)),
               msgs := c.msgs ++
                 [(uid, .timeoutRefund (t.bet + DEPOSIT) (t.snapshot + (t.bet + DEPOSIT)))] }
    else { c with timers := timers1 }

/-- A scheduler choice: advance a handler, fire a timer, or let some other
feature write a ledger balance. -/
inductive Choice where
  | task (i : Nat)
  | timer (uid : String)
  | ext (uid : String) (pts : Int)
deriving DecidableEq, Repr

/-- One scheduled step. -/
def cstep (ch : Choice) (c : CSt) : CSt :=
  match ch with
  | .task i =>
    match c.tasks.get? i with
    | none => c
    | some ts =>
      let p := stepTS ts c
      { p.2 with tasks := p.2.tasks.set i p.1 }
  | .timer uid => fireTimer uid c
  | .ext uid pts => { c with db := dbSetPoints c.db uid pts }

/-- Run a schedule. -/
def run (cs : List Choice) (c : CSt) : CSt :=
  cs.foldl (fun c ch => cstep ch c) c

/-! ## Atomic transition system and the membership invariant -/

/-- Every participant occurrence: lobby keys, then the two sides of every
pending game, then the two sides of every active game. -/
def gameIds (l : List (String × PendingGame)) : List String :=
  l.flatMap (fun e => [e.2.player1Id, e.2.player2Id])

def gameIdsA (l : List (String × ActiveGame)) : List String :=
  l.flatMap (fun e => [e.2.player1Id, e.2.player2Id])

def participants (s : St) : List String :=
  s.matchingLobby.map Prod.fst ++ gameIds s.pendingGames ++ gameIdsA s.activeGames

/-- The maps are keyed by `player1Id` (the source always does
`pendingGames.set(opponentId, game)` with `player1Id = opponentId`, and
`activeGames.set(userId, ...)` after checking `player1Id === userId`). -/
def keysOK (s : St) : Prop :=
  (∀ e ∈ s.pendingGames, e.2.player1Id = e.1) ∧
  (∀ e ∈ s.activeGames, e.2.player1Id = e.1)

def Inv (s : St) : Prop := (participants s).Nodup ∧ keysOK s

def inLobby (x : String) (s : St) : Prop := x ∈ s.matchingLobby.map Prod.fst
def inPending (x : String) (s : St) : Prop := x ∈ gameIds s.pendingGames
def inActive (x : String) (s : St) : Prop := x ∈ gameIdsA s.activeGames

/-- The exclusivity P2 asserts of a player id at a state. -/
def ExclusiveAt (x : String) (s : St) : Prop :=
  ¬(inLobby x s ∧ inPending x s) ∧ ¬(inLobby x s ∧ inActive x s) ∧
  ¬(inPending x s ∧ inActive x s)

/-- Serialized execution: each public operation (or an unrelated ledger
write by another feature) runs to completion as one transition. -/
inductive AStep : St → St → Prop where
  | enqueue (uid : String) (bet : Option Int) (rand : ℚ) (s : St) :
      AStep s (matchEnqueue uid bet rand s).1
  | timeout (uid : String) (s : St) : AStep s (lobbyTimeout uid s)
  | confirm (uid : String) (s s' : St) (r : Reply) :
      confirmStart uid s = some (s', r) → AStep s s'
  | tick (k : String) (s s' : St) : battleTick k s = some s' → AStep s s'
  | extLedger (uid : String) (pts : Int) (s : St) :
      AStep s { s with db := dbSetPoints s.db uid pts }

/-- The state at plugin start: some database content, empty maps. -/
def init (db : List (String × UserData)) : St := ⟨db, [], [], [], [], []⟩

def Reachable (db : List (String × UserData)) (s : St) : Prop :=
  Relation.ReflTransGen AStep (init db) s

/-! ## Concrete scenarios -/

/-- Two registered players, levels equal, balances 500 and 300 (the E2E
scenario of spec §8). -/
def c1Init : St :=
  ⟨[("a", ⟨"a", "A", none, 500, 3, 0, 0⟩), ("b", ⟨"b", "B", none, 300, 3, 0, 0⟩)],
   [], [], [], [], []⟩

/-- Full game: `a` enqueues 100, `b` enqueues 100 (draw 0, equal levels, so
the lobby resident `a` is the precomputed winner), `a` confirms, four more
interval ticks settle. -/
def c1Final : Option St :=
  (confirmStart "a"
      (matchEnqueue "b" (some 100) 0 (matchEnqueue "a" (some 100) 0 c1Init).1).1).bind
    (fun p => runTicks 4 "a" p.1)

/-- Two players with 20 points each; both will bet 5 (escrow 7). -/
def c2Init : CSt :=
  ⟨[("o", ⟨"o", "O", none, 20, 0, 0, 0⟩), ("u", ⟨"u", "U", none, 20, 0, 0, 0⟩)],
   [], [], [], [], [],
   [TS.m0 "o" (some 5) 0, TS.m0 "u" (some 5) 0]⟩

/-- The racy interleaving: `o` enqueues and waits; `u`'s handler runs up to
the opponent-existence read (the `await ctx.database.get` on line 671, a
suspension point reached after the lobby entry was chosen but before
`clearTimeout`/`delete` on lines 679-680); `o`'s lobby timer fires in that
window; `u`'s handler then resumes and completes the pairing. -/
def c2Sched : List Choice :=
  [.task 0, .task 0, .task 0, .task 1, .task 1, .task 1,
   .timer "o", .task 1, .task 1, .task 1]

def c2Final : CSt := run c2Sched c2Init

/-- Like `c2Init`, but the caller `u` issues the match command twice
concurrently (tasks 1 and 2). -/
def c3Init : CSt :=
  ⟨[("o", ⟨"o", "O", none, 20, 0, 0, 0⟩), ("u", ⟨"u", "U", none, 20, 0, 0, 0⟩)],
   [], [], [], [], [],
   [TS.m0 "o" (some 5) 0, TS.m0 "u" (some 5) 0, TS.m0 "u" (some 5) 0]⟩

/-- `o` enqueues; both of `u`'s handlers pass the line-660 membership check
(neither has inserted anything yet) and debit; the first pairs `u` with `o`;
the second then finds the lobby empty and inserts `u` as a lobby entry. -/
def c3Sched : List Choice :=
  [.task 0, .task 0, .task 0,
   .task 1, .task 1, .task 2, .task 2,
   .task 1, .task 1, .task 1, .task 1,
   .task 2]

def c3Final : CSt := run c3Sched c3Init

/-- A registered caller with 10 points, level 1. -/
def wU : UserData := ⟨"u", "U", none, 10, 1, 0, 0⟩

/-- A registered opponent with 30 points, level 4. -/
def wO : UserData := ⟨"o", "O", none, 30, 4, 0, 0⟩

/-- Scenario: `o` waits in the lobby (bet 5, escrow snapshot 23). -/
def wLobbySt : St := ⟨[("u", wU), ("o", wO)], [("o", ⟨5, 23⟩)], [], [], [], []⟩

/-- Scenario: a pending game keyed by its initiator `o`. -/
def wPendSt : St := ⟨[("u", wU), ("o", wO)], [], [("o", ⟨"o", "u", 5, 5, "o"⟩)], [], [], []⟩

/-- Player `p` with 50 points (the numbers of spec §8 P3). -/
def wP3U : UserData := ⟨"p", "P", none, 50, 1, 0, 0⟩

/-- Scenario: only `p` is registered, every store empty. -/
def wP3St : St := ⟨[("p", wP3U)], [], [], [], [], []⟩

/-- Scenario: a lobby entry whose owner has no `users` row. -/
def wStaleSt : St := ⟨[("u", wU)], [("ghost", ⟨5, 23⟩)], [], [], [], []⟩

/-! ## Map and list lemmas -/

section MapLemmas

variable {α : Type}

theorem mapGet_cons (e : String × α) (l : List (String × α)) (k : String) :
    mapGet (e :: l) k = if e.1 = k then some e.2 else mapGet l k := by
  cases e; rfl

theorem mapGet_isSome_iff (l : List (String × α)) (k : String) :
    (mapGet l k).isSome ↔ k ∈ l.map Prod.fst := by
  induction l with
  | nil => simp [mapGet]
  | cons e l ih =>
    cases e with
    | mk k0 v0 =>
      by_cases h : k0 = k
      · subst h; simp [mapGet]
      · simp only [mapGet, if_neg h, List.map_cons, List.mem_cons]
        rw [ih]
        constructor
        · exact fun hm => Or.inr hm
        · rintro (hm | hm)
          · exact absurd hm.symm h
          · exact hm

theorem mapGet_some_mem {l : List (String × α)} {k : String} {v : α}
    (h : mapGet l k = some v) : (k, v) ∈ l := by
  induction l with
  | nil => simp [mapGet] at h
  | cons e l ih =>
    cases e with
    | mk k0 v0 =>
      rw [mapGet_cons] at h
      by_cases hk : k0 = k
      · subst hk
        simp at h
        simp [h]
      · simp [hk] at h
        exact List.mem_cons_of_mem _ (ih h)

theorem mapDelete_sublist (l : List (String × α)) (k : String) :
    List.Sublist (mapDelete l k) l := by
  induction l with
  | nil => simp [mapDelete]
  | cons e l ih =>
    cases e with
    | mk k0 v0 =>
      simp only [mapDelete]
      by_cases h : k0 = k
      · simp [h]
      · rw [if_neg h]
        exact ih.cons₂ (k0, v0)

theorem mapSet_of_get_none {l : List (String × α)} {k : String} (v : α)
    (h : mapGet l k = none) : mapSet l k v = l ++ [(k, v)] := by
  induction l with
  | nil => rfl
  | cons e l ih =>
    cases e with
    | mk k0 v0 =>
      rw [mapGet_cons] at h
      by_cases hk : k0 = k
      · simp [hk] at h
      · simp [mapSet, hk] at h ⊢
        exact ih h

theorem mapGet_mapSet_self (l : List (String × α)) (k : String) (v : α) :
    mapGet (mapSet l k v) k = some v := by
  induction l with
  | nil => simp [mapSet, mapGet]
  | cons e l ih =>
    cases e with
    | mk k0 v0 =>
      by_cases h : k0 = k
      · simp [mapSet, mapGet, h]
      · simp [mapSet, mapGet, h, ih]

theorem mapGet_mapSet_ne (l : List (String × α)) {k k' : String} (v : α)
    (h : k ≠ k') : mapGet (mapSet l k v) k' = mapGet l k' := by
  induction l with
  | nil => simp [mapSet, mapGet, h]
  | cons e l ih =>
    cases e with
    | mk k0 v0 =>
      by_cases hk : k0 = k
      · subst hk; simp [mapSet, mapGet, h]
      · simp only [mapSet, if_neg hk]
        rw [mapGet_cons, mapGet_cons]
        simp [ih]

theorem mapSet_get_same {l : List (String × α)} {k : String} {v : α}
    (h : mapGet l k = some v) : mapSet l k v = l := by
  induction l with
  | nil => simp [mapGet] at h
  | cons e l ih =>
    cases e with
    | mk k0 v0 =>
      rw [mapGet_cons] at h
      by_cases hk : k0 = k
      · subst hk
        simp at h
        simp [mapSet, h]
      · simp [hk] at h
        simp [mapSet, hk, ih h]

theorem mapSet_mapSet (l : List (String × α)) (k : String) (v w : α) :
    mapSet (mapSet l k v) k w = mapSet l k w := by
  induction l with
  | nil => simp [mapSet]
  | cons e l ih =>
    cases e with
    | mk k0 v0 =>
      by_cases hk : k0 = k
      · simp [mapSet, hk]
      · simp [mapSet, hk, ih]

theorem mapGet_split {l : List (String × α)} {k : String} {v : α}
    (h : mapGet l k = some v) :
    ∃ l1 l2, l = l1 ++ (k, v) :: l2 ∧ mapGet l1 k = none ∧
      mapDelete l k = l1 ++ l2 := by
  induction l with
  | nil => simp [mapGet] at h
  | cons e l ih =>
    cases e with
    | mk k0 v0 =>
      rw [mapGet_cons] at h
      by_cases hk : k0 = k
      · subst hk
        simp at h
        subst h
        exact ⟨[], l, by simp [mapDelete, mapGet]⟩
      · simp [hk] at h
        obtain ⟨l1, l2, hl, hget, hdel⟩ := ih h
        refine ⟨(k0, v0) :: l1, l2, by simp [hl], ?_, ?_⟩
        · rw [mapGet_cons, if_neg hk, hget]
        · simp [mapDelete, hk, hdel]

theorem mem_mapSet {l : List (String × α)} {k : String} {v : α}
    {e : String × α} (h : e ∈ mapSet l k v) : e = (k, v) ∨ e ∈ l := by
  induction l with
  | nil => simp [mapSet] at h; simp [h]
  | cons f l ih =>
    cases f with
    | mk k0 v0 =>
      by_cases hk : k0 = k
      · simp [mapSet, hk] at h
        rcases h with h | h
        · exact Or.inl (by simp [h])
        · exact Or.inr (List.mem_cons_of_mem _ h)
      · simp [mapSet, hk] at h
        rcases h with h | h
        · exact Or.inr (by simp [h])
        · rcases ih h with h | h
          · exact Or.inl h
          · exact Or.inr (List.mem_cons_of_mem _ h)

end MapLemmas

theorem dbSetPoints_get_ne (db : List (String × UserData)) {uid k : String}
    (pts : Int) (h : uid ≠ k) :
    mapGet (dbSetPoints db uid pts) k = mapGet db k := by
  unfold dbSetPoints
  cases hget : mapGet db uid with
  | none => rfl
  | some u => exact mapGet_mapSet_ne _ _ h

theorem dbSetPoints_get_self {db : List (String × UserData)} {uid : String}
    {u : UserData} (pts : Int) (h : mapGet db uid = some u) :
    mapGet (dbSetPoints db uid pts) uid = some { u with points := pts } := by
  unfold dbSetPoints
  rw [h]
  exact mapGet_mapSet_self _ _ _

/-- `winChance` is exactly the line-687 expression
`0.5 + (lvDifference * 0.05)`. -/
theorem winChance_eq (lv1 lv2 : Int) :
    winChance lv1 lv2 = 1/2 + ((lv1 - lv2 : Int) : ℚ) * (5/100) := by
  unfold winChance
  rw [Rat.mkRat_eq_div]
  push_cast
  ring

/-! ## Evaluation lemmas for the atomic operations -/

/-- A successful enqueue against an empty lobby: immediate escrow debit and
a lobby entry carrying the refund closure's snapshot. -/
theorem enqueue_lobby_empty (uid : String) (s : St) (u : UserData) (b : Int)
    (r : ℚ) (hu : mapGet s.db uid = some u) (hb : 0 < b)
    (hpts : b + DEPOSIT ≤ u.points) (hnp : isParticipant uid s = false)
    (hempty : s.matchingLobby = []) :
    matchEnqueue uid (some b) r s =
      (⟨dbSetPoints s.db uid (u.points - (b + DEPOSIT)),
        [(uid, ⟨b, u.points - (b + DEPOSIT)⟩)],
        s.pendingGames, s.activeGames, s.intervals, s.msgs⟩,
       .enteredLobby b DEPOSIT (u.points - (b + DEPOSIT))) := by
  have hb' : ¬ b ≤ 0 := not_le.mpr hb
  have hpts' : ¬ u.points < b + DEPOSIT := not_lt.mpr hpts
  simp [matchEnqueue, hu, hb', hpts', hnp, hempty, mapSet]

/-- A successful enqueue against a non-empty lobby whose first entry's owner
still has a `users` row: pairing happens. -/
theorem enqueue_pair (uid oppId : String) (s : St) (u p1 : UserData)
    (b : Int) (e : LobbyPlayer) (rest : List (String × LobbyPlayer)) (r : ℚ)
    (hu : mapGet s.db uid = some u) (hb : 0 < b)
    (hpts : b + DEPOSIT ≤ u.points) (hnp : isParticipant uid s = false)
    (hlobby : s.matchingLobby = (oppId, e) :: rest)
    (hopp : mapGet s.db oppId = some p1) :
    matchEnqueue uid (some b) r s =
      (⟨dbSetPoints s.db uid (u.points - (b + DEPOSIT)),
        rest,
        mapSet s.pendingGames oppId
          ⟨oppId, uid, e.bet, b, if r < winChance p1.lv u.lv then oppId else uid⟩,
        s.activeGames, s.intervals,
        s.msgs ++ [(oppId, .matchFoundWait u.username),
                   (uid, .matchFoundJoin p1.username)]⟩,
       .matched) := by
  have hne : oppId ≠ uid := by
    intro h
    subst h
    rw [isParticipant, hlobby] at hnp
    simp [mapGet] at hnp
  have hb' : ¬ b ≤ 0 := not_le.mpr hb
  have hpts' : ¬ u.points < b + DEPOSIT := not_lt.mpr hpts
  have hget1 : mapGet (dbSetPoints s.db uid (u.points - (b + DEPOSIT))) oppId
      = some p1 := by
    rw [dbSetPoints_get_ne _ _ (Ne.symm hne), hopp]
  have hget2 : mapGet (dbSetPoints s.db uid (u.points - (b + DEPOSIT))) uid
      = some { u with points := u.points - (b + DEPOSIT) } :=
    dbSetPoints_get_self _ hu
  simp [matchEnqueue, hu, hb', hpts', hnp, hlobby, hget1, hget2, mapDelete]

/-- The stale-opponent branch: the first lobby entry's owner has no `users`
row. -/
theorem enqueue_stale (uid oppId : String) (s : St) (u : UserData)
    (b : Int) (e : LobbyPlayer) (rest : List (String × LobbyPlayer)) (r : ℚ)
    (hu : mapGet s.db uid = some u) (hb : 0 < b)
    (hpts : b + DEPOSIT ≤ u.points) (hnp : isParticipant uid s = false)
    (hlobby : s.matchingLobby = (oppId, e) :: rest)
    (hopp : mapGet s.db oppId = none) :
    matchEnqueue uid (some b) r s =
      (⟨s.db, rest, s.pendingGames, s.activeGames, s.intervals, s.msgs⟩,
       .staleOpponent) := by
  have hne : oppId ≠ uid := by
    intro h
    subst h
    rw [isParticipant, hlobby] at hnp
    simp [mapGet] at hnp
  have hb' : ¬ b ≤ 0 := not_le.mpr hb
  have hpts' : ¬ u.points < b + DEPOSIT := not_lt.mpr hpts
  have hget1 : mapGet (dbSetPoints s.db uid (u.points - (b + DEPOSIT))) oppId
      = none := by
    rw [dbSetPoints_get_ne _ _ (Ne.symm hne), hopp]
  have hget2 : mapGet (dbSetPoints s.db uid (u.points - (b + DEPOSIT))) uid
      = some { u with points := u.points - (b + DEPOSIT) } :=
    dbSetPoints_get_self _ hu
  have hdb : dbSetPoints (dbSetPoints s.db uid (u.points - (b + DEPOSIT))) uid
      u.points = s.db := by
    simp only [dbSetPoints, hu, mapGet_mapSet_self]
    rw [mapSet_mapSet]
    exact mapSet_get_same hu
  simp [matchEnqueue, hu, hb', hpts', hnp, hlobby, hget1, mapDelete, hdb]

/-- A battle tick below the final count succeeds. -/
theorem battleTick_isSome (k : String) (s : St) (a : ActiveGame) (u1 u2 : UserData)
    (ha : mapGet s.activeGames k = some a)
    (hcount : a.logCount + 1 < BATTLE_LOG_COUNT)
    (hw : a.winnerId = a.player1Id ∨ a.winnerId = a.player2Id)
    (h1 : mapGet s.db a.player1Id = some u1)
    (h2 : mapGet s.db a.player2Id = some u2) :
    ∃ s', battleTick k s = some s' := by
  have hnf : ¬ a.logCount + 1 ≥ BATTLE_LOG_COUNT := not_le.mpr hcount
  rw [← Option.isSome_iff_exists]
  by_cases hsame : a.winnerId = a.player1Id
  · simp [battleTick, ha, hsame, h1, h2, hnf]
  · have hww : a.winnerId = a.player2Id := hw.resolve_left hsame
    simp only [battleTick, ha]
    rw [if_neg hsame, hww]
    simp [h1, h2, hnf]

/-! ## Membership-invariant infrastructure -/

theorem gameIds_append (l1 l2 : List (String × PendingGame)) :
    gameIds (l1 ++ l2) = gameIds l1 ++ gameIds l2 := by
  simp [gameIds]

theorem gameIds_cons (e : String × PendingGame) (l : List (String × PendingGame)) :
    gameIds (e :: l) = e.2.player1Id :: e.2.player2Id :: gameIds l := by
  simp [gameIds]

theorem gameIdsA_append (l1 l2 : List (String × ActiveGame)) :
    gameIdsA (l1 ++ l2) = gameIdsA l1 ++ gameIdsA l2 := by
  simp [gameIdsA]

theorem gameIdsA_cons (e : String × ActiveGame) (l : List (String × ActiveGame)) :
    gameIdsA (e :: l) = e.2.player1Id :: e.2.player2Id :: gameIdsA l := by
  simp [gameIdsA]

theorem mem_gameIds_iff (l : List (String × PendingGame)) (x : String) :
    x ∈ gameIds l ↔ ∃ e ∈ l, x = e.2.player1Id ∨ x = e.2.player2Id := by
  simp [gameIds, eq_comm]

theorem mem_gameIdsA_iff (l : List (String × ActiveGame)) (x : String) :
    x ∈ gameIdsA l ↔ ∃ e ∈ l, x = e.2.player1Id ∨ x = e.2.player2Id := by
  simp [gameIdsA, eq_comm]

/-- Under key consistency, the line-660 check is exactly membership in the
participant-occurrence list. -/
theorem isParticipant_of_mem (uid : String) (s : St) (hk : keysOK s)
    (h : uid ∈ participants s) : isParticipant uid s = true := by
  simp only [participants, List.mem_append] at h
  simp only [isParticipant, Bool.or_eq_true]
  rcases h with (h | h) | h
  · exact Or.inl (Or.inl (Or.inl (Or.inl ((mapGet_isSome_iff _ _).mpr h))))
  · rcases (mem_gameIds_iff _ _).mp h with ⟨e, he, hpe | hpe⟩
    · refine Or.inl (Or.inl (Or.inl (Or.inr ?_)))
      refine (mapGet_isSome_iff _ _).mpr ?_
      rw [hpe, hk.1 e he]
      exact List.mem_map.mpr ⟨e, he, rfl⟩
    · refine Or.inl (Or.inr ?_)
      exact List.any_eq_true.mpr ⟨e, he, by simp [hpe]⟩
  · rcases (mem_gameIdsA_iff _ _).mp h with ⟨e, he, hpe | hpe⟩
    · refine Or.inl (Or.inl (Or.inr ?_))
      refine (mapGet_isSome_iff _ _).mpr ?_
      rw [hpe, hk.2 e he]
      exact List.mem_map.mpr ⟨e, he, rfl⟩
    · exact Or.inr (List.any_eq_true.mpr ⟨e, he, by simp [hpe]⟩)

theorem not_mem_participants (uid : String) (s : St) (hk : keysOK s)
    (h : isParticipant uid s = false) : uid ∉ participants s := by
  intro hm
  rw [isParticipant_of_mem uid s hk hm] at h
  exact absurd h (by simp)

/-- Updating an existing active game without touching its participant ids
leaves the occurrence list unchanged. -/
theorem gameIdsA_mapSet_same (l : List (String × ActiveGame)) (k : String)
    (g g' : ActiveGame) (hget : mapGet l k = some g)
    (h1 : g'.player1Id = g.player1Id) (h2 : g'.player2Id = g.player2Id) :
    gameIdsA (mapSet l k g') = gameIdsA l := by
  induction l with
  | nil => simp [mapGet] at hget
  | cons e l ih =>
    cases e with
    | mk k0 a0 =>
      by_cases hk : k0 = k
      · rw [mapGet_cons, if_pos hk] at hget
        injection hget with ha
        have ha' : a0 = g := ha
        simp only [mapSet, if_pos hk, gameIdsA_cons, h1, h2, ha']
      · rw [mapGet_cons, if_neg hk] at hget
        simp only [mapSet, if_neg hk, gameIdsA_cons, ih hget]

/-- Deleting an active game only removes occurrences. -/
theorem gameIdsA_mapDelete_sublist (l : List (String × ActiveGame)) (k : String) :
    List.Sublist (gameIdsA (mapDelete l k)) (gameIdsA l) := by
  induction l with
  | nil => simp [mapDelete]
  | cons e l ih =>
    cases e with
    | mk k0 a0 =>
      simp only [mapDelete]
      by_cases hk : k0 = k
      · rw [if_pos hk, gameIdsA_cons]
        exact ((List.Sublist.refl _).cons _).cons _
      · rw [if_neg hk, gameIdsA_cons, gameIdsA_cons]
        exact (ih.cons₂ _).cons₂ _

theorem inv_timeout (uid : String) (s : St) (h : Inv s) :
    Inv (lobbyTimeout uid s) := by
  unfold lobbyTimeout
  cases hget : mapGet s.matchingLobby uid with
  | none => exact h
  | some e =>
    obtain ⟨hnd, hk⟩ := h
    refine ⟨?_, hk⟩
    have hsub : List.Sublist
        (participants ⟨dbSetPoints s.db uid (e.snapshot + (e.bet + DEPOSIT)),
          mapDelete s.matchingLobby uid, s.pendingGames, s.activeGames,
          s.intervals,
          s.msgs ++ [(uid, .timeoutRefund (e.bet + DEPOSIT)
            (e.snapshot + (e.bet + DEPOSIT)))]⟩)
        (participants s) := by
      simp only [participants]
      exact (((mapDelete_sublist _ _).map Prod.fst).append
        (List.Sublist.refl _)).append (List.Sublist.refl _)
    exact List.Nodup.sublist hsub hnd

theorem inv_tick (k : String) (s s' : St) (h : Inv s)
    (ht : battleTick k s = some s') : Inv s' := by
  unfold battleTick at ht
  cases hag : mapGet s.activeGames k with
  | none =>
    rw [hag] at ht
    simp at ht
    rw [← ht]
    exact h
  | some g =>
    rw [hag] at ht
    obtain ⟨hnd, hkp, hka⟩ := h
    have hmem := mapGet_some_mem hag
    cases hwr : mapGet s.db g.winnerId with
    | none => simp [hwr] at ht
    | some w =>
      cases hlr : mapGet s.db
          (if g.winnerId = g.player1Id then g.player2Id else g.player1Id) with
      | none => simp [hwr, hlr] at ht
      | some l =>
        simp only [hwr, hlr] at ht
        by_cases hfin : g.logCount + 1 ≥ BATTLE_LOG_COUNT
        · rw [if_pos hfin] at ht
          cases hp1 : mapGet s.db g.player1Id with
          | none => simp [hp1] at ht
          | some p1 =>
            cases hp2 : mapGet s.db g.player2Id with
            | none => simp [hp1, hp2] at ht
            | some p2 =>
              simp only [hp1, hp2] at ht
              have hshape : s'.matchingLobby = s.matchingLobby
                  ∧ s'.pendingGames = s.pendingGames
                  ∧ s'.activeGames = mapDelete s.activeGames k := by
                by_cases hwin : g.winnerId = g.player1Id
                · rw [if_pos hwin] at ht
                  cases ht
                  exact ⟨rfl, rfl, rfl⟩
                · rw [if_neg hwin] at ht
                  cases ht
                  exact ⟨rfl, rfl, rfl⟩
              obtain ⟨hl', hp', ha'⟩ := hshape
              refine ⟨?_, ?_, ?_⟩
              · have hsub : List.Sublist (participants s') (participants s) := by
                  simp only [participants, hl', hp', ha']
                  exact ((List.Sublist.refl _).append
                    (List.Sublist.refl _)).append
                      (gameIdsA_mapDelete_sublist _ _)
                exact List.Nodup.sublist hsub hnd
              · rw [hp']; exact hkp
              · rw [ha']
                intro e he
                exact hka e ((mapDelete_sublist _ _).subset he)
        · rw [if_neg hfin] at ht
          cases ht
          refine ⟨?_, hkp, ?_⟩
          · have heq : gameIdsA (mapSet s.activeGames k
                { g with logCount := g.logCount + 1 }) = gameIdsA s.activeGames :=
              gameIdsA_mapSet_same _ _ _ _ hag rfl rfl
            simpa [participants, heq] using hnd
          · intro e he
            rcases mem_mapSet he with he' | he'
            · rw [he']
              exact hka (k, g) hmem
            · exact hka e he'

theorem inv_confirm (uid : String) (s s' : St) (rpl : Reply) (h : Inv s)
    (hc : confirmStart uid s = some (s', rpl)) : Inv s' := by
  unfold confirmStart at hc
  cases hg : mapGet s.pendingGames uid with
  | none =>
    rw [hg] at hc
    simp at hc
    rw [← hc.1]
    exact h
  | some g =>
    rw [hg] at hc
    dsimp only at hc
    by_cases hne : g.player1Id ≠ uid
    · rw [if_pos hne] at hc
      simp at hc
      rw [← hc.1]
      exact h
    · rw [if_neg hne] at hc
      push_neg at hne
      obtain ⟨hnd, hkp, hka⟩ := h
      obtain ⟨l1, l2, hpend, hget1, hdel⟩ := mapGet_split hg
      have hnact : mapGet s.activeGames uid = none := by
        cases hact : mapGet s.activeGames uid with
        | none => rfl
        | some a =>
          exfalso
          have hmemA : uid ∈ gameIdsA s.activeGames :=
            (mem_gameIdsA_iff _ _).mpr
              ⟨(uid, a), mapGet_some_mem hact,
               Or.inl (hka _ (mapGet_some_mem hact)).symm⟩
          have hmemP : uid ∈ gameIds s.pendingGames :=
            (mem_gameIds_iff _ _).mpr
              ⟨(uid, g), mapGet_some_mem hg, Or.inl hne.symm⟩
          have hdisj := (List.nodup_append.mp hnd).2.2
          exact hdisj (List.mem_append.mpr (Or.inr hmemP)) hmemA
      have hset : mapSet s.activeGames uid ⟨g, 0⟩
          = s.activeGames ++ [(uid, ⟨g, 0⟩)] := mapSet_of_get_none _ hnact
      have hinv1 : Inv ⟨s.db, s.matchingLobby, mapDelete s.pendingGames uid,
          mapSet s.activeGames uid ⟨g, 0⟩, s.intervals,
          s.msgs ++ [(g.player1Id, .gameStart), (g.player2Id, .gameStart)]⟩ := by
        refine ⟨?_, ?_, ?_⟩
        · have hperm : List.Perm
              (s.matchingLobby.map Prod.fst
                ++ gameIds (mapDelete s.pendingGames uid)
                ++ gameIdsA (mapSet s.activeGames uid ⟨g, 0⟩))
              (participants s) := by
            rw [hdel, hset, participants, hpend, gameIds_append,
              gameIds_append, gameIds_cons, gameIdsA_append]
            refine List.perm_iff_count.mpr (fun a => ?_)
            simp only [List.count_append, List.count_cons, gameIdsA_cons,
              gameIdsA]
            simp [List.count_cons]
            omega
          exact (hperm.nodup_iff).mpr hnd
        · intro e he
          exact hkp e ((mapDelete_sublist _ _).subset he)
        · intro e he
          rcases mem_mapSet he with he' | he'
          · rw [he']
            exact hne
          · exact hka e he'
      cases hbt : battleTick uid ⟨s.db, s.matchingLobby,
          mapDelete s.pendingGames uid, mapSet s.activeGames uid ⟨g, 0⟩,
          s.intervals,
          s.msgs ++ [(g.player1Id, .gameStart), (g.player2Id, .gameStart)]⟩ with
      | none =>
        rw [hbt] at hc
        simp at hc
      | some s2 =>
        rw [hbt] at hc
        simp at hc
        have hinv2 := inv_tick uid _ s2 hinv1 hbt
        rw [← hc.1]
        exact ⟨hinv2.1, hinv2.2⟩

theorem inv_enqueue (uid : String) (bet : Option Int) (rand : ℚ) (s : St)
    (h : Inv s) : Inv (matchEnqueue uid bet rand s).1 := by
  obtain ⟨hnd, hkp, hka⟩ := h
  unfold matchEnqueue
  cases hu : mapGet s.db uid with
  | none => exact ⟨hnd, hkp, hka⟩
  | some u =>
    cases bet with
    | none => exact ⟨hnd, hkp, hka⟩
    | some b =>
      dsimp only
      by_cases hb : b ≤ 0
      · rw [if_pos hb]
        exact ⟨hnd, hkp, hka⟩
      · rw [if_neg hb]
        by_cases hpts : u.points < b + DEPOSIT
        · rw [if_pos hpts]
          exact ⟨hnd, hkp, hka⟩
        · rw [if_neg hpts]
          by_cases hpart : isParticipant uid s = true
          · simp only [hpart, if_true]
            exact ⟨hnd, hkp, hka⟩
          · have hnp : isParticipant uid s = false := by
              cases hq : isParticipant uid s
              · rfl
              · exact absurd hq hpart
            simp only [hnp, Bool.false_eq_true, if_false]
            have hmem : uid ∉ participants s :=
              not_mem_participants uid s ⟨hkp, hka⟩ hnp
            cases hlob : s.matchingLobby with
            | nil =>
              refine ⟨?_, hkp, hka⟩
              rw [participants, hlob] at hnd hmem
              simp only [List.map_nil, List.nil_append] at hnd hmem
              simp only [participants, mapSet, List.map_cons, List.map_nil]
              exact List.nodup_cons.mpr ⟨hmem, hnd⟩
            | cons head rest =>
              obtain ⟨oppId, oppE⟩ := head
              dsimp only
              cases hopp : mapGet (dbSetPoints s.db uid
                  (u.points - (b + DEPOSIT))) oppId with
              | none =>
                refine ⟨?_, hkp, hka⟩
                have hsub : List.Sublist
                    ((List.map Prod.fst (mapDelete ((oppId, oppE) :: rest) oppId)
                      ++ gameIds s.pendingGames) ++ gameIdsA s.activeGames)
                    (participants s) := by
                  rw [participants, hlob]
                  exact (((mapDelete_sublist _ _).map Prod.fst).append
                    (List.Sublist.refl _)).append (List.Sublist.refl _)
                exact List.Nodup.sublist hsub hnd
              | some p1 =>
                have hg2 := dbSetPoints_get_self (u.points - (b + DEPOSIT)) hu
                rw [hg2]
                have hoppmem : oppId ∈ s.matchingLobby.map Prod.fst := by
                  rw [hlob]
                  exact List.mem_cons_self _ _
                have hpnone : mapGet s.pendingGames oppId = none := by
                  cases hps : mapGet s.pendingGames oppId with
                  | none => rfl
                  | some pg =>
                    exfalso
                    have hmemP : oppId ∈ gameIds s.pendingGames :=
                      (mem_gameIds_iff _ _).mpr
                        ⟨(oppId, pg), mapGet_some_mem hps,
                         Or.inl (hkp _ (mapGet_some_mem hps)).symm⟩
                    have hLP := (List.nodup_append.mp hnd).1
                    have hdisj := (List.nodup_append.mp hLP).2.2
                    exact hdisj hoppmem hmemP
                have hset : mapSet s.pendingGames oppId
                    ⟨oppId, uid, oppE.bet, b,
                      if rand < winChance p1.lv
                          ({ u with points := u.points - (b + DEPOSIT)}).lv
                      then oppId else uid⟩
                    = s.pendingGames ++ [(oppId, ⟨oppId, uid, oppE.bet, b,
                        if rand < winChance p1.lv
                            ({ u with points := u.points - (b + DEPOSIT)}).lv
                        then oppId else uid⟩)] := mapSet_of_get_none _ hpnone
                refine ⟨?_, ?_, hka⟩
                · have hperm : List.Perm
                      ((List.map Prod.fst (mapDelete ((oppId, oppE) :: rest) oppId)
                        ++ gameIds (mapSet s.pendingGames oppId
                          ⟨oppId, uid, oppE.bet, b,
                            if rand < winChance p1.lv
                                ({ u with points := u.points - (b + DEPOSIT)}).lv
                            then oppId else uid⟩))
                        ++ gameIdsA s.activeGames)
                      (uid :: participants s) := by
                    rw [hset, gameIds_append, participants, hlob]
                    simp only [mapDelete, if_pos rfl, gameIds_cons, gameIds,
                      List.flatMap_nil, List.map_cons]
                    refine List.perm_iff_count.mpr (fun a => ?_)
                    simp [List.count_append, List.count_cons]
                    omega
                  refine (hperm.nodup_iff).mpr ?_
                  exact List.nodup_cons.mpr ⟨hmem, hnd⟩
                · intro e he
                  rcases mem_mapSet he with he' | he'
                  · rw [he']
                  · exact hkp e he'

/-- All atomic transitions preserve the invariant. -/
theorem inv_astep (s s' : St) (h : Inv s) (hs : AStep s s') : Inv s' := by
  cases hs with
  | enqueue uid bet rand => exact inv_enqueue uid bet rand s h
  | timeout uid => exact inv_timeout uid s h
  | confirm uid s1 s2 r hc => exact inv_confirm uid s s' r h hc
  | tick k s1 s2 ht => exact inv_tick k s s' h ht
  | extLedger uid pts => exact ⟨h.1, h.2.1, h.2.2⟩

theorem inv_reachable (db : List (String × UserData)) (s : St)
    (h : Reachable db s) : Inv s := by
  induction h with
  | refl =>
    refine ⟨?_, ?_, ?_⟩
    · simp [participants, init, gameIds, gameIdsA]
    · intro e he
      simp [init] at he
    · intro e he
      simp [init] at he
  | tail hstep hs ih => exact inv_astep _ _ ih hs

/-! ## Claims -/

/-- C1, counterexample: points are NOT conserved across a completed game.
In the spec's own E2E scenario (balances 500/300, stakes 100, deposit 2,
the lobby resident wins), the settled balances are 500 and 198: the sum
dropped from 800 to 698 — the winner's own stake and deposit left the
system, contradicting the claim's conservation clause. -/
theorem c1_conservation_counterexample :
    (c1Final.map (fun s =>
      ((mapGet s.db "a").map UserData.points, (mapGet s.db "b").map UserData.points)))
      = some (some 500, some 198)
    ∧ (mapGet c1Init.db "a").map UserData.points = some 500
    ∧ (mapGet c1Init.db "b").map UserData.points = some 300
    ∧ ¬((500 : Int) + 198 = 500 + 300) := by decide

/-- C2, race exhibit: in the interleaving `c2Sched`, the pairing handler's
suspension at the opponent-existence read (line 671) lets `o`'s lobby timer
fire after the entry was chosen but before `clearTimeout`/`delete`
(lines 679-680).  The timer observes the entry PRESENT, refunds `o`
(message `timeoutRefund 7 20`, balance back to 20), and the handler still
completes the pairing: `o` ends up both timed-out-and-refunded and the
`player1Id` of a pending game — the transition the claim says cannot
happen. -/
theorem c2_pairing_timeout_race :
    (mapGet c2Final.pending "o").map PendingGame.player1Id = some "o"
    ∧ ("o", Msg.timeoutRefund 7 20) ∈ c2Final.msgs
    ∧ (mapGet c2Final.db "o").map UserData.points = some 20 := by decide

/-- C3, counterexample: the membership check runs before the handler's
first suspension point and is never re-validated, so two concurrent
`对对碰匹配` invocations by the same player both pass it; in `c3Sched` the
first pairs `u` into a pending game (as `player2Id`) while the second then
inserts `u` into the lobby — `u` is in two of the three stores at once. -/
theorem c3_exclusivity_counterexample :
    "u" ∈ c3Final.lobby.map Prod.fst
    ∧ "u" ∈ gameIds c3Final.pending := by decide

/-- C3, amended: when the public operations (enqueue incl. pairing, lobby
timeout, confirmStart, battle ticks, plus unrelated ledger writes) execute
serially — each running to completion as one transition — every reachable
state keeps any player id in at most one of the lobby, the pending-games
map (either side) and the active-games map (either side); the line-660
membership check is what admits new entries.  (Under interleaved execution
the check is not re-validated after suspension points and the property can
be violated — see the counterexample.) -/
theorem c3_exclusivity_amended (db : List (String × UserData)) (s : St)
    (h : Reachable db s) (x : String) : ExclusiveAt x s := by
  obtain ⟨hnd, _, _⟩ := inv_reachable db s h
  have h1 := List.nodup_append.mp hnd
  have h2 := List.nodup_append.mp h1.1
  refine ⟨?_, ?_, ?_⟩
  · rintro ⟨hl, hp⟩
    exact h2.2.2 hl hp
  · rintro ⟨hl, ha⟩
    exact h1.2.2 (List.mem_append.mpr (Or.inl hl)) ha
  · rintro ⟨hp, ha⟩
    exact h1.2.2 (List.mem_append.mpr (Or.inr hp)) ha

/-- C3 amended at a state reached by one serialized enqueue. -/
theorem c3_exclusivity_amended_witness :
    ExclusiveAt "o" (matchEnqueue "u" (some 5) 0 (init [("u", wU)])).1 :=
  c3_exclusivity_amended [("u", wU)] _
    (Relation.ReflTransGen.single (AStep.enqueue "u" (some 5) 0 _)) "o"

/-- C1, amended: across a full game (two enqueues, confirmation, five
ticks), the winner's balance rises at settlement by exactly (loser's stake
+ deposit) relative to its post-escrow value and the loser keeps the escrow
debit — but the winner's own stake and deposit are never returned, so the
final sum is the initial sum MINUS (winner's stake + deposit); points are
not conserved. -/
theorem c1_conservation_amended (A B : String) (uA uB : UserData)
    (b1 b2 : Int) (r r0 : ℚ) (hAB : A ≠ B) (hb1 : 0 < b1) (hb2 : 0 < b2)
    (hpa : b1 + DEPOSIT ≤ uA.points) (hpb : b2 + DEPOSIT ≤ uB.points) :
    (((confirmStart A
        (matchEnqueue B (some b2) r
          (matchEnqueue A (some b1) r0
            ⟨[(A, uA), (B, uB)], [], [], [], [], []⟩).1).1).bind
        (fun p => runTicks 4 A p.1)).map (fun s =>
        ((mapGet s.db A).map UserData.points,
         (mapGet s.db B).map UserData.points)))
      = some (if r < winChance uA.lv uB.lv
          then (some (uA.points + b2 - b1), some (uB.points - (b2 + DEPOSIT)))
          else (some (uA.points - (b1 + DEPOSIT)), some (uB.points + b1 - b2)))
    ∧ (uA.points + b2 - b1) + (uB.points - (b2 + DEPOSIT))
        = (uA.points + uB.points) - (b1 + DEPOSIT)
    ∧ (uA.points - (b1 + DEPOSIT)) + (uB.points + b1 - b2)
        = (uA.points + uB.points) - (b2 + DEPOSIT) := by
  have hBA : B ≠ A := Ne.symm hAB
  have hb1' : ¬ b1 ≤ 0 := not_le.mpr hb1
  have hb2' : ¬ b2 ≤ 0 := not_le.mpr hb2
  have hpa' : ¬ uA.points < b1 + DEPOSIT := not_lt.mpr hpa
  have hpb' : ¬ uB.points < b2 + DEPOSIT := not_lt.mpr hpb
  refine ⟨?_, by ring, by ring⟩
  by_cases hr : r < winChance uA.lv uB.lv
  · simp only [matchEnqueue, confirmStart, battleTick, runTicks, mapGet, mapSet,
      mapDelete, dbSetPoints, isParticipant, listErase, hAB, hBA, hb1', hb2',
      hpa', hpb', hr, BATTLE_LOG_COUNT, if_true, if_false]
    simp [matchEnqueue, confirmStart, battleTick, runTicks, mapGet, mapSet,
      mapDelete, dbSetPoints, listErase, hAB, hBA, hr, BATTLE_LOG_COUNT]
    omega
  · simp only [matchEnqueue, confirmStart, battleTick, runTicks, mapGet, mapSet,
      mapDelete, dbSetPoints, isParticipant, listErase, hAB, hBA, hb1', hb2',
      hpa', hpb', hr, BATTLE_LOG_COUNT, if_true, if_false]
    simp [matchEnqueue, confirmStart, battleTick, runTicks, mapGet, mapSet,
      mapDelete, dbSetPoints, listErase, hAB, hBA, hr, BATTLE_LOG_COUNT]
    omega

/-- C1 amended at the spec §8 E2E numbers (balances 500/300, stakes 100). -/
theorem c1_conservation_amended_witness :
    (((confirmStart "a"
        (matchEnqueue "b" (some 100) 0
          (matchEnqueue "a" (some 100) 0
            ⟨[("a", ⟨"a", "A", none, 500, 3, 0, 0⟩),
              ("b", ⟨"b", "B", none, 300, 3, 0, 0⟩)], [], [], [], [], []⟩).1).1).bind
        (fun p => runTicks 4 "a" p.1)).map (fun s =>
        ((mapGet s.db "a").map UserData.points,
         (mapGet s.db "b").map UserData.points)))
      = some (if (0 : ℚ) < winChance (3 : Int) 3
          then (some (500 + 100 - 100 : Int), some (300 - (100 + DEPOSIT) : Int))
          else (some (500 - (100 + DEPOSIT) : Int), some (300 + 100 - 100 : Int)))
    ∧ ((500 : Int) + 100 - 100) + (300 - (100 + DEPOSIT))
        = (500 + 300) - (100 + DEPOSIT)
    ∧ ((500 : Int) - (100 + DEPOSIT)) + (300 + 100 - 100)
        = (500 + 300) - (100 + DEPOSIT) :=
  c1_conservation_amended "a" "b" ⟨"a", "A", none, 500, 3, 0, 0⟩
    ⟨"b", "B", none, 300, 3, 0, 0⟩ 100 100 0 0 (by decide) (by decide)
    (by decide) (by decide) (by decide)

/-- C4: a caller with no pending game under their key, or whose pending
game's `player1Id` differs from their id, gets the "no pending game"
rejection with the state returned untouched; the rightful initiator (the
key, with `player1Id` equal to it) can then still confirm successfully. -/
theorem c4_confirmation_gate (c i : String) (s : St) (g : PendingGame)
    (u1 u2 : UserData)
    (hc : mapGet s.pendingGames c = none ∨
          ∃ g', mapGet s.pendingGames c = some g' ∧ g'.player1Id ≠ c)
    (hi : mapGet s.pendingGames i = some g) (hkey : g.player1Id = i)
    (hw : g.winnerId = g.player1Id ∨ g.winnerId = g.player2Id)
    (h1 : mapGet s.db g.player1Id = some u1)
    (h2 : mapGet s.db g.player2Id = some u2) :
    confirmStart c s = some (s, .noPendingGame)
    ∧ ∃ s', confirmStart i s = some (s', .gameStarted) := by
  constructor
  · rcases hc with hc | ⟨g', hg', hne⟩
    · simp [confirmStart, hc]
    · simp [confirmStart, hg', hne]
  · obtain ⟨s2, hs2⟩ :=
      battleTick_isSome i
        ⟨s.db, s.matchingLobby, mapDelete s.pendingGames i,
         mapSet s.activeGames i ⟨g, 0⟩, s.intervals,
         s.msgs ++ [(g.player1Id, .gameStart), (g.player2Id, .gameStart)]⟩
        ⟨g, 0⟩ u1 u2 (mapGet_mapSet_self _ _ _)
        (by norm_num [BATTLE_LOG_COUNT]) hw h1 h2
    refine ⟨⟨s2.db, s2.matchingLobby, s2.pendingGames, s2.activeGames,
             s2.intervals ++ [i], s2.msgs⟩, ?_⟩
    simp only [confirmStart, hi]
    rw [if_neg (by simp [hkey]), hs2]

/-- C5: an enqueue that inserts a new lobby entry debits (stake + deposit)
immediately; the timer firing with the entry still present removes it,
refunds the full escrow (balance back to its pre-enqueue value) and
notifies the player. -/
theorem c5_timeout_refund (uid : String) (s : St) (u : UserData) (b : Int)
    (r : ℚ) (hu : mapGet s.db uid = some u) (hb : 0 < b)
    (hpts : b + DEPOSIT ≤ u.points) (hnp : isParticipant uid s = false)
    (hempty : s.matchingLobby = []) :
    (mapGet (matchEnqueue uid (some b) r s).1.db uid).map UserData.points
        = some (u.points - (b + DEPOSIT))
    ∧ mapGet (matchEnqueue uid (some b) r s).1.matchingLobby uid
        = some ⟨b, u.points - (b + DEPOSIT)⟩
    ∧ (mapGet (lobbyTimeout uid (matchEnqueue uid (some b) r s).1).db uid).map
        UserData.points = some u.points
    ∧ mapGet (lobbyTimeout uid (matchEnqueue uid (some b) r s).1).matchingLobby
        uid = none
    ∧ (uid, Msg.timeoutRefund (b + DEPOSIT) u.points)
        ∈ (lobbyTimeout uid (matchEnqueue uid (some b) r s).1).msgs := by
  have hu1 : mapGet (dbSetPoints s.db uid (u.points - (b + DEPOSIT))) uid
      = some { u with points := u.points - (b + DEPOSIT) } :=
    dbSetPoints_get_self _ hu
  have hu2 := dbSetPoints_get_self u.points hu1
  rw [enqueue_lobby_empty uid s u b r hu hb hpts hnp hempty]
  refine ⟨by simp [hu1], by simp [mapGet], ?_, ?_, ?_⟩
  · simp [lobbyTimeout, mapGet, hu2]
  · simp [lobbyTimeout, mapGet, mapDelete]
  · simp [lobbyTimeout, mapGet]

/-- C6: the pairing winner is the lobby resident exactly when the draw `r`
is below `0.5 + 0.05 * (residentLv - callerLv)` computed from the levels
re-read from the `users` table at pairing time; the expression is not
clamped, so a level gap of 10 or more fixes the outcome. -/
theorem c6_winner_selection (uid oppId : String) (s : St) (u p1 : UserData)
    (b : Int) (e : LobbyPlayer) (rest : List (String × LobbyPlayer)) (r : ℚ)
    (hu : mapGet s.db uid = some u) (hb : 0 < b)
    (hpts : b + DEPOSIT ≤ u.points) (hnp : isParticipant uid s = false)
    (hlobby : s.matchingLobby = (oppId, e) :: rest)
    (hopp : mapGet s.db oppId = some p1) :
    (mapGet (matchEnqueue uid (some b) r s).1.pendingGames oppId).map
        PendingGame.winnerId
      = some (if r < 1/2 + ((p1.lv - u.lv : Int) : ℚ) * (5/100) then oppId else uid)
    ∧ (10 ≤ p1.lv - u.lv → 0 ≤ r → r < 1 →
        (mapGet (matchEnqueue uid (some b) r s).1.pendingGames oppId).map
          PendingGame.winnerId = some oppId)
    ∧ (p1.lv - u.lv ≤ -10 → 0 ≤ r →
        (mapGet (matchEnqueue uid (some b) r s).1.pendingGames oppId).map
          PendingGame.winnerId = some uid) := by
  rw [enqueue_pair uid oppId s u p1 b e rest r hu hb hpts hnp hlobby hopp]
  simp only [mapGet_mapSet_self, Option.map_some]
  rw [winChance_eq]
  refine ⟨rfl, ?_, ?_⟩
  · intro hlv hr0 hr1
    have hcast : (10 : ℚ) ≤ ((p1.lv - u.lv : Int) : ℚ) := by exact_mod_cast hlv
    have : (1 : ℚ) ≤ 1/2 + ((p1.lv - u.lv : Int) : ℚ) * (5/100) := by linarith
    rw [if_pos (lt_of_lt_of_le hr1 this)]
    rfl
  · intro hlv hr0
    have hcast : ((p1.lv - u.lv : Int) : ℚ) ≤ -10 := by exact_mod_cast hlv
    have : 1/2 + ((p1.lv - u.lv : Int) : ℚ) * (5/100) ≤ 0 := by linarith
    rw [if_neg (not_lt.mpr (le_trans this hr0))]
    rfl

/-- C8: when the waiting opponent's `users` row is gone, pairing aborts:
the opponent's entry is dropped without any write for the opponent, the
caller's escrow is restored in full (the whole table returns to its
pre-call contents), no pending game is created, no `session.send` happens
(the stale-opponent error is only the command's return value, to the
caller), and the opponent's row stays absent. -/
theorem c8_stale_opponent (uid oppId : String) (s : St) (u : UserData)
    (b : Int) (e : LobbyPlayer) (rest : List (String × LobbyPlayer)) (r : ℚ)
    (hu : mapGet s.db uid = some u) (hb : 0 < b)
    (hpts : b + DEPOSIT ≤ u.points) (hnp : isParticipant uid s = false)
    (hlobby : s.matchingLobby = (oppId, e) :: rest)
    (hopp : mapGet s.db oppId = none) :
    matchEnqueue uid (some b) r s =
      (⟨s.db, rest, s.pendingGames, s.activeGames, s.intervals, s.msgs⟩,
       .staleOpponent)
    ∧ (mapGet (matchEnqueue uid (some b) r s).1.db uid).map UserData.points
        = some u.points
    ∧ mapGet (matchEnqueue uid (some b) r s).1.db oppId = none := by
  have h := enqueue_stale uid oppId s u b e rest r hu hb hpts hnp hlobby hopp
  refine ⟨h, ?_, ?_⟩
  · rw [h]
    simp [hu]
  · rw [h]
    exact hopp

/-- C9: an enqueue with a missing or non-positive stake, with too few
points, or by a player already present in one of the three stores is
rejected with the corresponding message and the state is returned
untouched. -/
theorem c9_enqueue_rejection (uid : String) (s : St) (u : UserData) (r : ℚ)
    (hu : mapGet s.db uid = some u) :
    matchEnqueue uid none r s = (s, .invalidBet)
    ∧ (∀ b : Int, b ≤ 0 → matchEnqueue uid (some b) r s = (s, .invalidBet))
    ∧ (∀ b : Int, 0 < b → u.points < b + DEPOSIT →
        matchEnqueue uid (some b) r s =
          (s, .insufficientPoints (b + DEPOSIT) u.points))
    ∧ (∀ b : Int, 0 < b → b + DEPOSIT ≤ u.points → isParticipant uid s = true →
        matchEnqueue uid (some b) r s = (s, .alreadyInGame)) := by
  refine ⟨?_, ?_, ?_, ?_⟩
  · simp [matchEnqueue, hu]
  · intro b hb
    simp [matchEnqueue, hu, hb]
  · intro b hb hlt
    have hb' : ¬ b ≤ 0 := not_le.mpr hb
    simp [matchEnqueue, hu, hb', hlt]
  · intro b hb hge hpart
    have hb' : ¬ b ≤ 0 := not_le.mpr hb
    have hlt' : ¬ u.points < b + DEPOSIT := not_lt.mpr hge
    simp [matchEnqueue, hu, hb', hlt', hpart]

/-- C4 at a concrete pending game: `u` (the non-initiator) is rejected with
no state change and `o` can still start. -/
theorem c4_confirmation_gate_witness :
    confirmStart "u" wPendSt = some (wPendSt, .noPendingGame)
    ∧ ∃ s', confirmStart "o" wPendSt = some (s', .gameStarted) :=
  c4_confirmation_gate "u" "o" wPendSt ⟨"o", "u", 5, 5, "o"⟩ wO wU
    (Or.inl (by decide)) (by decide) rfl (Or.inl rfl) (by decide) (by decide)

/-- C5 at the spec §8 P3 numbers: balance 50, stake 10, deposit 2 — the
balance goes to 38 on enqueue and back to 50 on timeout
(`wP3U.points - (10 + DEPOSIT) = 38`). -/
theorem c5_timeout_refund_witness :
    (mapGet (matchEnqueue "p" (some 10) 0 wP3St).1.db "p").map UserData.points
        = some (wP3U.points - (10 + DEPOSIT))
    ∧ mapGet (matchEnqueue "p" (some 10) 0 wP3St).1.matchingLobby "p"
        = some ⟨10, wP3U.points - (10 + DEPOSIT)⟩
    ∧ (mapGet (lobbyTimeout "p" (matchEnqueue "p" (some 10) 0 wP3St).1).db
        "p").map UserData.points = some wP3U.points
    ∧ mapGet (lobbyTimeout "p"
        (matchEnqueue "p" (some 10) 0 wP3St).1).matchingLobby "p" = none
    ∧ ("p", Msg.timeoutRefund (10 + DEPOSIT) wP3U.points)
        ∈ (lobbyTimeout "p" (matchEnqueue "p" (some 10) 0 wP3St).1).msgs :=
  c5_timeout_refund "p" wP3St wP3U 10 0 (by decide) (by decide) (by decide)
    (by decide) rfl

/-- C6 at a concrete pairing (`o` level 4 vs `u` level 1, draw 0). -/
theorem c6_winner_selection_witness :
    (mapGet (matchEnqueue "u" (some 5) 0 wLobbySt).1.pendingGames "o").map
        PendingGame.winnerId
      = some (if (0 : ℚ) < 1/2 + ((wO.lv - wU.lv : Int) : ℚ) * (5/100)
              then "o" else "u")
    ∧ (10 ≤ wO.lv - wU.lv → (0 : ℚ) ≤ 0 → (0 : ℚ) < 1 →
        (mapGet (matchEnqueue "u" (some 5) 0 wLobbySt).1.pendingGames "o").map
          PendingGame.winnerId = some "o")
    ∧ (wO.lv - wU.lv ≤ -10 → (0 : ℚ) ≤ 0 →
        (mapGet (matchEnqueue "u" (some 5) 0 wLobbySt).1.pendingGames "o").map
          PendingGame.winnerId = some "u") :=
  c6_winner_selection "u" "o" wLobbySt wU wO 5 ⟨5, 23⟩ [] 0 (by decide)
    (by decide) (by decide) (by decide) rfl (by decide)

/-- C8 at a concrete stale pairing: `ghost` waits in the lobby but has no
`users` row; `u`'s call aborts, refunds `u` and drops the entry. -/
theorem c8_stale_opponent_witness :
    matchEnqueue "u" (some 3) 0 wStaleSt =
      (⟨wStaleSt.db, [], wStaleSt.pendingGames, wStaleSt.activeGames,
        wStaleSt.intervals, wStaleSt.msgs⟩, .staleOpponent)
    ∧ (mapGet (matchEnqueue "u" (some 3) 0 wStaleSt).1.db "u").map
        UserData.points = some wU.points
    ∧ mapGet (matchEnqueue "u" (some 3) 0 wStaleSt).1.db "ghost" = none :=
  c8_stale_opponent "u" "ghost" wStaleSt wU 3 ⟨5, 23⟩ [] 0 (by decide)
    (by decide) (by decide) (by decide) rfl (by decide)

/-- C7: starting a confirmed game sends the first `战况播报 (1/5)` pair
synchronously inside the confirming command (the scheduler entry `[A]` is
added only after that tick, mirroring the source's order: first
`sendBattleLog`, then `setInterval`); the four interval firings then
produce exactly the `(2/5) .. (5/5)` pairs followed by exactly one
settlement message pair, after which the interval is cancelled and the
`ActiveGame` is gone. -/
theorem c7_tick_sequencing (A B : String) (uA uB : UserData) (g : PendingGame)
    (hAB : A ≠ B) (hg1 : g.player1Id = A) (hg2 : g.player2Id = B)
    (hw : g.winnerId = A ∨ g.winnerId = B) :
    (confirmStart A ⟨[(A, uA), (B, uB)], [], [(A, g)], [], [], []⟩).map
        (fun p => (p.2, p.1.msgs, p.1.intervals, mapGet p.1.activeGames A))
      = some (.gameStarted,
          [(A, .gameStart), (B, .gameStart),
           (A, Msg.battleLog 1 5 (if g.winnerId = A then uA.lv else uB.lv)
                 (if g.winnerId = A then uA.username else uB.username)
                 (if g.winnerId = A then uB.lv else uA.lv)
                 (if g.winnerId = A then uB.username else uA.username)),
           (B, Msg.battleLog 1 5 (if g.winnerId = A then uA.lv else uB.lv)
                 (if g.winnerId = A then uA.username else uB.username)
                 (if g.winnerId = A then uB.lv else uA.lv)
                 (if g.winnerId = A then uB.username else uA.username))],
          [A], some ⟨g, 1⟩)
    ∧ ((confirmStart A ⟨[(A, uA), (B, uB)], [], [(A, g)], [], [], []⟩).bind
        (fun p => runTicks 4 A p.1)).map
        (fun s => (s.msgs, s.intervals, s.activeGames))
      = some (
          [(A, (Msg.gameStart : Msg)), (B, .gameStart)]
          ++ (List.range 5).flatMap (fun n =>
              [(A, Msg.battleLog (n+1) 5 (if g.winnerId = A then uA.lv else uB.lv)
                     (if g.winnerId = A then uA.username else uB.username)
                     (if g.winnerId = A then uB.lv else uA.lv)
                     (if g.winnerId = A then uB.username else uA.username)),
               (B, Msg.battleLog (n+1) 5 (if g.winnerId = A then uA.lv else uB.lv)
                     (if g.winnerId = A then uA.username else uB.username)
                     (if g.winnerId = A then uB.lv else uA.lv)
                     (if g.winnerId = A then uB.username else uA.username))])
          ++ (if g.winnerId = A
              then [(A, Msg.resultWin g.player2Bet DEPOSIT
                          (uA.points + g.player2Bet + DEPOSIT)),
                    (B, Msg.resultLose g.player2Bet DEPOSIT uB.points)]
              else [(A, Msg.resultLose g.player1Bet DEPOSIT uA.points),
                    (B, Msg.resultWin g.player1Bet DEPOSIT
                          (uB.points + g.player1Bet + DEPOSIT))]),
          ([] : List String), ([] : List (String × ActiveGame))) := by
  have hBA : B ≠ A := Ne.symm hAB
  constructor
  · rcases hw with hww | hww
    · simp [confirmStart, battleTick, mapGet, mapSet, mapDelete, dbSetPoints,
        hg1, hg2, hww, hAB, hBA, BATTLE_LOG_COUNT, DEPOSIT]
    · simp [confirmStart, battleTick, mapGet, mapSet, mapDelete, dbSetPoints,
        hg1, hg2, hww, hAB, hBA, BATTLE_LOG_COUNT, DEPOSIT]
  · rcases hw with hww | hww
    · simp [confirmStart, battleTick, runTicks, mapGet, mapSet, mapDelete,
        dbSetPoints, listErase, hg1, hg2, hww, hAB, hBA, BATTLE_LOG_COUNT,
        DEPOSIT, List.range_succ]
    · simp [confirmStart, battleTick, runTicks, mapGet, mapSet, mapDelete,
        dbSetPoints, listErase, hg1, hg2, hww, hAB, hBA, BATTLE_LOG_COUNT,
        DEPOSIT, List.range_succ]

/-- C7 at the concrete pending game of `wPendSt` (winner `o`, loser `u`). -/
theorem c7_tick_sequencing_witness :
    (confirmStart "o" ⟨[("o", wO), ("u", wU)], [], [("o", ⟨"o", "u", 5, 5, "o"⟩)],
        [], [], []⟩).map
        (fun p => (p.2, p.1.msgs, p.1.intervals, mapGet p.1.activeGames "o"))
      = some (.gameStarted,
          [("o", .gameStart), ("u", .gameStart),
           ("o", Msg.battleLog 1 5
                 (if ("o" : String) = "o" then wO.lv else wU.lv)
                 (if ("o" : String) = "o" then wO.username else wU.username)
                 (if ("o" : String) = "o" then wU.lv else wO.lv)
                 (if ("o" : String) = "o" then wU.username else wO.username)),
           ("u", Msg.battleLog 1 5
                 (if ("o" : String) = "o" then wO.lv else wU.lv)
                 (if ("o" : String) = "o" then wO.username else wU.username)
                 (if ("o" : String) = "o" then wU.lv else wO.lv)
                 (if ("o" : String) = "o" then wU.username else wO.username))],
          ["o"], some ⟨⟨"o", "u", 5, 5, "o"⟩, 1⟩)
    ∧ ((confirmStart "o" ⟨[("o", wO), ("u", wU)], [],
          [("o", ⟨"o", "u", 5, 5, "o"⟩)], [], [], []⟩).bind
        (fun p => runTicks 4 "o" p.1)).map
        (fun s => (s.msgs, s.intervals, s.activeGames))
      = some (
          [("o", (Msg.gameStart : Msg)), ("u", .gameStart)]
          ++ (List.range 5).flatMap (fun n =>
              [("o", Msg.battleLog (n+1) 5
                     (if ("o" : String) = "o" then wO.lv else wU.lv)
                     (if ("o" : String) = "o" then wO.username else wU.username)
                     (if ("o" : String) = "o" then wU.lv else wO.lv)
                     (if ("o" : String) = "o" then wU.username else wO.username)),
               ("u", Msg.battleLog (n+1) 5
                     (if ("o" : String) = "o" then wO.lv else wU.lv)
                     (if ("o" : String) = "o" then wO.username else wU.username)
                     (if ("o" : String) = "o" then wU.lv else wO.lv)
                     (if ("o" : String) = "o" then wU.username else wO.username))])
          ++ (if ("o" : String) = "o"
              then [("o", Msg.resultWin 5 DEPOSIT (wO.points + 5 + DEPOSIT)),
                    ("u", Msg.resultLose 5 DEPOSIT wU.points)]
              else [("o", Msg.resultLose 5 DEPOSIT wO.points),
                    ("u", Msg.resultWin 5 DEPOSIT (wU.points + 5 + DEPOSIT))]),
          ([] : List String), ([] : List (String × ActiveGame))) :=
  c7_tick_sequencing "o" "u" wO wU ⟨"o", "u", 5, 5, "o"⟩ (by decide) rfl rfl
    (Or.inl rfl)

/-- C10: both refund paths write `snapshot + stake + deposit` where the
snapshot is the in-memory `user.points` captured at enqueue (already
debited), i.e. an absolute write of the pre-enqueue balance.  An arbitrary
absolute ledger write `x` landing between the enqueue and the refund — via
a direct write in the atomic model (timeout path) or an `.ext` step between
the handler's suspension points (stale-opponent path, interleaved model) —
is overwritten: the final balance is the enqueue-time value `u.points`,
whatever `x` was. -/
theorem c10_absolute_refund (uid oppId : String) (s : St) (u : UserData)
    (b x : Int) (e : LobbyPlayer) (r : ℚ)
    (hu : mapGet s.db uid = some u) (hb : 0 < b)
    (hpts : b + DEPOSIT ≤ u.points) (hnp : isParticipant uid s = false)
    (hempty : s.matchingLobby = []) (hne : oppId ≠ uid) :
    (mapGet (lobbyTimeout uid
        { (matchEnqueue uid (some b) r s).1 with
          db := dbSetPoints (matchEnqueue uid (some b) r s).1.db uid x }).db
        uid).map UserData.points = some u.points
    ∧ (mapGet (run [.task 0, .task 0, .task 0, .ext uid x, .task 0]
        ⟨[(uid, u)], [(oppId, e)], [], [], [], [],
         [TS.m0 uid (some b) r]⟩).db uid).map UserData.points
        = some u.points := by
  have hb' : ¬ b ≤ 0 := not_le.mpr hb
  have hpts' : ¬ u.points < b + DEPOSIT := not_lt.mpr hpts
  constructor
  · have hu1 : mapGet (dbSetPoints s.db uid (u.points - (b + DEPOSIT))) uid
        = some { u with points := u.points - (b + DEPOSIT) } :=
      dbSetPoints_get_self _ hu
    have hux := dbSetPoints_get_self x hu1
    have hufin := dbSetPoints_get_self u.points hux
    rw [enqueue_lobby_empty uid s u b r hu hb hpts hnp hempty]
    simp [lobbyTimeout, mapGet, hux, hufin]
  · simp [run, cstep, stepTS, fireTimer, isParticipantC, mapGet, mapSet,
      mapDelete, dbSetPoints, hne, Ne.symm hne, hb', hpts']

/-- C10 at concrete values: `p` enqueues 10 from 50, an external write sets
the balance to 999, the refund still lands on 50. -/
theorem c10_absolute_refund_witness :
    (mapGet (lobbyTimeout "p"
        { (matchEnqueue "p" (some 10) 0 wP3St).1 with
          db := dbSetPoints (matchEnqueue "p" (some 10) 0 wP3St).1.db "p" 999 }).db
        "p").map UserData.points = some wP3U.points
    ∧ (mapGet (run [.task 0, .task 0, .task 0, .ext "p" 999, .task 0]
        ⟨[("p", wP3U)], [("ghost", ⟨5, 23⟩)], [], [], [], [],
         [TS.m0 "p" (some 10) 0]⟩).db "p").map UserData.points
        = some wP3U.points :=
  c10_absolute_refund "p" "ghost" wP3St wP3U 10 999 ⟨5, 23⟩ 0 (by decide)
    (by decide) (by decide) (by decide) rfl (by decide)

/-- C9 at concrete rejections: missing bet, zero bet, unaffordable bet, and
a caller (`o`) already waiting in the lobby. -/
theorem c9_enqueue_rejection_witness :
    matchEnqueue "o" none 0 wLobbySt = (wLobbySt, .invalidBet)
    ∧ matchEnqueue "o" (some 0) 0 wLobbySt = (wLobbySt, .invalidBet)
    ∧ matchEnqueue "o" (some 100) 0 wLobbySt =
        (wLobbySt, .insufficientPoints (100 + DEPOSIT) wO.points)
    ∧ matchEnqueue "o" (some 5) 0 wLobbySt = (wLobbySt, .alreadyInGame) := by
  obtain ⟨h1, h2, h3, h4⟩ := c9_enqueue_rejection "o" wLobbySt wO 0 (by decide)
  exact ⟨h1, h2 0 (by decide), h3 100 (by decide) (by decide),
         h4 5 (by decide) (by decide) (by decide)⟩

end DeerPipe
